import Mathlib

/-!
Verification of the zipimage-resizer core pipeline (src/app.rs, src/zip_util.rs).

The Rust code is shallowly embedded: machine integers are modelled as Nat
(dimensions are u32 values, sizes are u64 values), fallible computations as
Except String, panics as Option (none = panic).  The f64 arithmetic inside
the image crate's resize_dimensions is modelled with exact rational
arithmetic expressed over Nat: round(a/b) with rounding half away from zero
becomes (2*a + b) / (2*b) in Nat division; for the dimension ranges a u32
image can have, the f64 computation and the exact rational computation
agree.
-/

/-- Size Budget: 1 MiB, the literal 1024 * 1024 from src/app.rs. -/
def budget : Nat := 1024 * 1024

/-- u32::MAX, used by reduce_size as the unconstrained width bound. -/
def u32max : Nat := 4294967295

/-- round(num / den) with rounding half away from zero, as f64::round does
for nonnegative values; expressed in exact Nat arithmetic. -/
def ratRound (num den : Nat) : Nat := (2 * num + den) / (2 * den)

/-- The image crate's resize_dimensions (fill = false): ratio is the
minimum of nw/w and nh/h (the minimum chosen by cross-multiplication,
modelling the exact comparison of the two fractions), each output
dimension is round(dim * ratio) clamped below to 1, and an output
dimension exceeding u32::MAX is clamped with the other recomputed. -/
def resize_dimensions (w h nw nh : Nat) : Nat × Nat :=
  let useH := nh * w ≤ nw * h
  let rw := max (if useH then ratRound (w * nh) h else ratRound (w * nw) w) 1
  let rh := max (if useH then ratRound (h * nh) h else ratRound (h * nw) w) 1
  if u32max < rw then (u32max, max (ratRound (h * u32max) w) 1)
  else if u32max < rh then (max (ratRound (w * u32max) h) 1, u32max)
  else (rw, rh)

/-- ReduceSize::reduce_size from src/app.rs: if the image height is at
least the target height, resize to fit (u32::MAX, target) preserving
aspect ratio (Lanczos3 resampling affects pixels, not dimensions);
otherwise return the image unchanged.  Modelled on dimensions. -/
def reduce_size (w h target : Nat) : Nat × Nat :=
  if target ≤ h then resize_dimensions w h u32max target else (w, h)

/-- Rust a..=b as a list. -/
def rangeInclusive (a b : Nat) : List Nat := List.range' a (b + 1 - a)

/-- Iterator::step_by n: keep the elements at indices 0, n, 2n, .... -/
def stepBy (n : Nat) (l : List Nat) : List Nat :=
  (l.enum.filter (fun p => p.1 % n == 0)).map Prod.snd

/-- The quality levels tried by resize_image_file_webp:
(15..=95).rev().step_by(10). -/
def qualityLevels : List Nat := stepBy 10 (rangeInclusive 15 95).reverse

/-- The quality search of resize_image_file_webp, lines 98-103 of
src/app.rs: among the descending quality levels, pick the first whose
encoded size is strictly below the budget; if none qualifies, encode at
quality 10.  `encode` abstracts encoder.encode as quality -> byte size;
the result is (chosen quality, encoded size). -/
def chosenWebp (encode : Nat → Nat) : Nat × Nat :=
  match qualityLevels.find? (fun q => decide (encode q < budget)) with
  | some q => (q, encode q)
  | none => (10, encode 10)

/-- Number of encoder.encode calls the lazy map/find/unwrap_or_else chain
performs: one per failing level until the first success, plus the
successful one; if every level fails, all nine levels plus the quality-10
fallback. -/
def countAttempts (encode : Nat → Nat) : Nat :=
  (qualityLevels.takeWhile (fun q => !decide (encode q < budget))).length + 1

/-- Image formats as far as the pipeline distinguishes them. -/
inductive ImgFormat
| webp
| png
| jpeg
| gif
| otherFormat
deriving DecidableEq

/-- Pixel layouts as far as the pipeline distinguishes them: the two
layouts the webp encoder accepts, and everything else. -/
inductive ColorKind
| rgb8
| rgba8
| otherColor
deriving DecidableEq

/-- A decoded DynamicImage, reduced to the data the pipeline inspects. -/
structure Img where
  width : Nat
  height : Nat
  color : ColorKind
deriving DecidableEq

/-- DynamicImage::to_rgb8 on the modelled data: same dimensions, rgb8. -/
def Img.to_rgb8 (img : Img) : Img := { img with color := ColorKind.rgb8 }

/-- Lines 83-87 of src/app.rs: keep ImageRgb8 and ImageRgba8 as they are,
coerce every other layout to rgb8. -/
def convertForWebp (img : Img) : Img :=
  match img.color with
  | ColorKind.rgb8 => img
  | ColorKind.rgba8 => img
  | ColorKind.otherColor => img.to_rgb8

/-- webp::Encoder::from_image: succeeds exactly on ImageRgb8 and
ImageRgba8 inputs, fails with "Unimplemented" otherwise. -/
def encoderFromImage (img : Img) : Except String Unit :=
  match img.color with
  | ColorKind.rgb8 => Except.ok ()
  | ColorKind.rgba8 => Except.ok ()
  | ColorKind.otherColor => Except.error ("Unimplemented")

/-- One file of the working tree, as resize_image_file_webp observes it:
the result of image::guess_format on its bytes (Except: guessing fails on
content matching no known magic bytes, e.g. plain text), its byte size
from metadata().len(), the result of image::open (none = decode failure),
and the deterministic encoded-output size per quality for its (converted,
reduced) image. -/
structure SrcFile where
  guess : Except String ImgFormat
  size : Nat
  decoded : Option Img
  encSize : Nat → Nat

/-- resize_image_file_webp from src/app.rs (filesystem reads and writes
modelled as succeeding; the Bool is the Rust Ok payload: true = file
replaced, false = unchanged).  The guess_format error propagates through
the ? operator; the webp short-circuit and decode-failure paths return
Ok(false); otherwise the image is converted, reduced, an encoder is
constructed (a hard error on failure), the quality search picks the
encoded bytes, and the file is replaced. -/
def resize_image_file_webp (minHeight : Nat) (f : SrcFile) : Except String Bool :=
  match f.guess with
  | Except.error e => Except.error e
  | Except.ok fmt =>
    if fmt = ImgFormat.webp ∧ f.size < budget then Except.ok false
    else
      match f.decoded with
      | none => Except.ok false
      | some img =>
        let image := convertForWebp img
        let dims := reduce_size image.width image.height minHeight
        let reduced : Img := { width := dims.1, height := dims.2, color := image.color }
        match encoderFromImage reduced with
        | Except.error e => Except.error ("failed to create webp encoder: " ++ e)
        | Except.ok _ =>
          let _webp := chosenWebp f.encSize
          Except.ok true

/-- The filter predicate on line 131 of src/app.rs:
`*r.as_ref().ok().unwrap_or(&false)` — true exactly on Ok(true); note it
is false on Err, so error results are dropped by the filter. -/
def keepChanged (r : Except String Bool) : Bool := r.toOption.getD false

/-- collect::<Result<Vec<_>>>(): first error, or the list of payloads. -/
def collectResults : List (Except String Bool) → Except String (List Bool)
  | [] => Except.ok []
  | Except.error e :: _ => Except.error e
  | Except.ok b :: rest => (collectResults rest).map (fun l => b :: l)

/-- Lines 128-133 of src/app.rs: map resize_image_file_webp over the
files, filter with keepChanged, collect into a Result, take the length.
(rayon's par_iter preserves the element order of the collected output;
which error collect would surface is irrelevant because the filter has
already removed every error.) -/
def resized_count (minHeight : Nat) (files : List SrcFile) : Except String Nat :=
  (collectResults ((files.map (resize_image_file_webp minHeight)).filter keepChanged)).map
    List.length

/-- Outcome of resize_image_zipfile for one archive, as observable by the
caller and the filesystem: a propagated hard error, a success with no
destination file created (early return on zero changes, before
zip_util::zip runs), or a success that packed the tree and wrote the
destination file. -/
inductive ZipOutcome
| failed (e : String)
| skippedNoOutput
| wroteDst
deriving DecidableEq

/-- resize_image_zipfile from src/app.rs, after extraction: aggregate the
per-file results; on error propagate it; on zero changed files return
without packing or creating the destination; otherwise pack the tree and
write the destination file. -/
def resize_image_zipfile (minHeight : Nat) (files : List SrcFile) : ZipOutcome :=
  match resized_count minHeight files with
  | Except.error e => ZipOutcome.failed e
  | Except.ok n => if n = 0 then ZipOutcome.skippedNoOutput else ZipOutcome.wroteDst

/-- A node of the working tree as the packer sees it: a file or a
directory with children, each carrying its file name (last path
component). -/
inductive FsTree
| file (name : String)
| dir (name : String) (children : List FsTree)

/-- The file name (last path component) of a node. -/
def FsTree.name : FsTree → String
  | FsTree.file n => n
  | FsTree.dir n _ => n

/-- DirEntry::file_type().is_file(). -/
def FsTree.isFile : FsTree → Bool
  | FsTree.file _ => true
  | FsTree.dir _ _ => false

/-- DirEntry::file_type().is_dir(). -/
def FsTree.isDir : FsTree → Bool
  | FsTree.file _ => false
  | FsTree.dir _ _ => true

/-- Children of a node (empty for a file). -/
def FsTree.children : FsTree → List FsTree
  | FsTree.file _ => []
  | FsTree.dir _ cs => cs

/-- Insert a node into a list sorted by name (helper of sortByName). -/
def insertByName (t : FsTree) : List FsTree → List FsTree
  | [] => [t]
  | u :: us => if t.name ≤ u.name then t :: u :: us else u :: insertByName t us

/-- walkdir's sort_by_file_name on one directory level: sort the entries
by their file name. -/
def sortByName : List FsTree → List FsTree
  | [] => []
  | t :: ts => insertByName t (sortByName ts)

theorem insertByName_sizeOf (t : FsTree) (l : List FsTree) :
    sizeOf (insertByName t l) = 1 + sizeOf t + sizeOf l := by
  induction l with
  | nil => simp [insertByName]
  | cons u us ih =>
    simp only [insertByName]
    by_cases h : t.name ≤ u.name
    · simp [h]
    · simp [h, ih]
      omega

theorem sortByName_sizeOf (l : List FsTree) : sizeOf (sortByName l) = sizeOf l := by
  induction l with
  | nil => rfl
  | cons t ts ih => simp [sortByName, insertByName_sizeOf, ih]

mutual

/-- zip_process_dir from src/zip_util.rs on the relative-path level: the
entries of one directory in the order the packer writes them.  `pre` is
the relative path prefix of this directory ("" at the root).  The level's
entries are sorted by file name (walkdir sort_by_file_name); all file
entries of the level are written first, then each subdirectory gets its
directory entry followed immediately by its own entries (recursion).  The
root directory itself produces no entry. -/
def zip_process_dir (pre : String) (cs : List FsTree) : List String :=
  ((sortByName cs).filter FsTree.isFile).map (fun t => pre ++ t.name)
    ++ zipDirs pre (sortByName cs)
termination_by (2 * sizeOf cs + 1)
decreasing_by
  rw [sortByName_sizeOf]
  omega

/-- The second loop of zip_process_dir: for each directory entry of the
level (in the given order), write its add_directory entry and recurse. -/
def zipDirs (pre : String) (cs : List FsTree) : List String :=
  match cs with
  | [] => []
  | FsTree.file _ :: rest => zipDirs pre rest
  | FsTree.dir n children :: rest =>
      (pre ++ n) :: (zip_process_dir (pre ++ n ++ "/") children ++ zipDirs pre rest)
termination_by (2 * sizeOf cs)
decreasing_by
  all_goals simp
  all_goals omega

end

/-- Compression strategy of a zip entry. -/
inductive CompressionMethod
| stored
| deflated
deriving DecidableEq

/-- get_options from src/zip_util.rs, on the entry's extension (empty
string when the path has none): lowercase it; jpg, jpeg, png and webp are
stored, everything else uses the default method (deflate). -/
def get_options (ext : String) : CompressionMethod :=
  let e := ext.toLower
  if e = "jpg" ∨ e = "jpeg" ∨ e = "png" ∨ e = "webp" then CompressionMethod.stored
  else CompressionMethod.deflated

/-- Rust u64 division: panics (modelled as none) when the divisor is 0. -/
def rustDivU64 (a b : Nat) : Option Nat := if b = 0 then none else some (a / b)

/-- calc_average_size_per_file from src/app.rs, after the metadata and
archive reads succeeded: the archive's byte size divided by its entry
count (zip_util::get_file_count = ZipArchive::len()), with Rust's
panicking integer division. -/
def calc_average_size_per_file (fileSize entryCount : Nat) : Option Nat :=
  rustDivU64 fileSize entryCount

/-- The sequence of states of the destination path an external reader can
observe during the commit (lines 139-150 of src/app.rs), the container
modelled as its list of bytes: before File::create the path is absent
(none); File::create creates/truncates it to empty; io::copy appends the
staged bytes sequentially, so the path holds each prefix of the container
in turn, the full container last. -/
def commitSteps (container : List Nat) : List (Option (List Nat)) :=
  none :: (List.range (container.length + 1)).map (fun i => some (container.take i))

/-- A plain-text file: its bytes match no known image magic, so
image::guess_format fails, and it does not decode as an image. -/
def textFile : SrcFile :=
  { guess := Except.error ("unsupported image format"),
    size := 5,
    decoded := none,
    encSize := fun _ => 0 }

/-- A 1200x3000 PNG of 2 MB: decodes fine, gets resized and re-encoded. -/
def bigPngFile : SrcFile :=
  { guess := Except.ok ImgFormat.png,
    size := 2000000,
    decoded := some { width := 1200, height := 3000, color := ColorKind.rgb8 },
    encSize := fun _ => 500000 }

/-- A 300 KB file already in WebP format. -/
def smallWebpFile : SrcFile :=
  { guess := Except.ok ImgFormat.webp,
    size := 300000,
    decoded := some { width := 800, height := 600, color := ColorKind.rgb8 },
    encSize := fun _ => 300000 }

/-- C1: the claim says a hard error from any per-file task is propagated
out of resize_image_zipfile and the archive's pipeline is aborted.  The
code does the opposite: the filter on line 131 maps Err results to false
and drops them before collect::<Result<_>>() runs, so the ? on line 132
never fires.  Here one task hard-errors (unguessable file) while another
replaces its file: the aggregation reports Ok(1) and the archive is
packed and written to the destination. -/
theorem hard_error_swallowed_and_archive_written :
    resize_image_file_webp 1800 textFile = Except.error ("unsupported image format")
    ∧ keepChanged (resize_image_file_webp 1800 textFile) = false
    ∧ resized_count 1800 [textFile, bigPngFile] = Except.ok 1
    ∧ resize_image_zipfile 1800 [textFile, bigPngFile] = ZipOutcome.wroteDst :=
  ⟨rfl, rfl, rfl, rfl⟩

/-- C2 counterexample: a file whose content does not decode as an image
(plain text, whose format guess_format cannot even determine) makes
resize_image_file_webp return an error — the guess_format error
propagates through the ? on line 69 — not Ok(false). -/
theorem undecodable_text_file_errors :
    textFile.decoded = none
    ∧ resize_image_file_webp 1800 textFile = Except.error ("unsupported image format")
    ∧ resize_image_file_webp 1800 textFile ≠ Except.ok false :=
  ⟨rfl, rfl, fun hcon => Except.noConfusion hcon⟩

theorem resize_guess_error (minHeight : Nat) (f : SrcFile) (e : String)
    (hg : f.guess = Except.error e) :
    resize_image_file_webp minHeight f = Except.error e := by
  unfold resize_image_file_webp
  rw [hg]

theorem filter_keepChanged_nil (minHeight : Nat) (files : List SrcFile)
    (h : ∀ f ∈ files, ∃ e, f.guess = Except.error e) :
    (files.map (resize_image_file_webp minHeight)).filter keepChanged = [] := by
  induction files with
  | nil => rfl
  | cons f fs ih =>
    obtain ⟨e, he⟩ := h f (by simp)
    simp only [List.map_cons, List.filter,
      resize_guess_error minHeight f e he]
    simpa [keepChanged, Except.toOption] using ih (fun g hg => h g (by simp [hg]))

/-- C2 amended: a file whose format is recognized by guess_format but
whose content then fails to decode is passed through as Ok(false), not an
error; a file whose format cannot even be guessed (plain text) makes
resize_image_file_webp return an error, which the aggregation of
resize_image_zipfile then silently drops — so for an archive of only such
files the changed count is still 0 and no destination file is created. -/
theorem decode_failure_unchanged_amended :
    (∀ (minHeight : Nat) (f : SrcFile) (fmt : ImgFormat),
        f.guess = Except.ok fmt → f.decoded = none →
        resize_image_file_webp minHeight f = Except.ok false)
    ∧ (∀ (minHeight : Nat) (files : List SrcFile),
        (∀ f ∈ files, ∃ e, f.guess = Except.error e) →
        resize_image_zipfile minHeight files = ZipOutcome.skippedNoOutput) := by
  constructor
  · intro minH f fmt hg hd
    simp only [resize_image_file_webp, hg, hd]
    split <;> rfl
  · intro minH files h
    unfold resize_image_zipfile resized_count
    rw [filter_keepChanged_nil minH files h]
    rfl

/-- Witness for the C2 amended theorem: a recognized PNG whose decode
fails is Unchanged, and an archive of five text files is skipped with no
output. -/
theorem decode_failure_unchanged_witness :
    resize_image_file_webp 1800
      { guess := Except.ok ImgFormat.png, size := 9, decoded := none, encSize := fun _ => 0 }
      = Except.ok false
    ∧ resize_image_zipfile 1800 [textFile, textFile, textFile, textFile, textFile]
      = ZipOutcome.skippedNoOutput :=
  ⟨decode_failure_unchanged_amended.1 1800
      { guess := Except.ok ImgFormat.png, size := 9, decoded := none, encSize := fun _ => 0 }
      ImgFormat.png rfl rfl,
    decode_failure_unchanged_amended.2 1800 [textFile, textFile, textFile, textFile, textFile]
      (by intro f hf; simp at hf; subst hf; exact ⟨"unsupported image format", rfl⟩)⟩

/-- C7: a file already recognized as WebP and smaller than the 1 MiB
budget is returned Unchanged by the short-circuit on lines 69-73, for any
decode result and any encoder behavior (so nothing is decoded or
re-encoded). -/
theorem webp_small_short_circuit :
    ∀ (minHeight : Nat) (f : SrcFile),
      f.guess = Except.ok ImgFormat.webp → f.size < budget →
      resize_image_file_webp minHeight f = Except.ok false := by
  intro minH f hg hs
  simp [resize_image_file_webp, hg, hs]

/-- Witness for C7 at a concrete 300 KB WebP file. -/
theorem webp_small_short_circuit_witness :
    resize_image_file_webp 1800 smallWebpFile = Except.ok false :=
  webp_small_short_circuit 1800 smallWebpFile rfl (by decide)

/-- C8: when the aggregation reports zero changed files,
resize_image_zipfile returns without packing and without creating the
destination file; as soon as the count is nonzero the tree is packed and
the destination written. -/
theorem zero_changed_no_output :
    ∀ (minHeight : Nat) (files : List SrcFile) (n : Nat),
      resized_count minHeight files = Except.ok n →
      (n = 0 → resize_image_zipfile minHeight files = ZipOutcome.skippedNoOutput)
      ∧ (0 < n → resize_image_zipfile minHeight files = ZipOutcome.wroteDst) := by
  intro minH files n h
  constructor
  · intro h0
    simp only [resize_image_zipfile, h]
    rw [if_pos h0]
  · intro h0
    simp only [resize_image_zipfile, h]
    rw [if_neg (by omega)]

/-- Witness for C8: an archive holding one already-compact WebP file has
changed count 0 and produces no output. -/
theorem zero_changed_no_output_witness :
    resized_count 1800 [smallWebpFile] = Except.ok 0
    ∧ resize_image_zipfile 1800 [smallWebpFile] = ZipOutcome.skippedNoOutput :=
  ⟨rfl, (zero_changed_no_output 1800 [smallWebpFile] 0 rfl).1 rfl⟩

/-- C9: get_options stores an entry uncompressed exactly when its
lowercased extension is jpg, jpeg, png or webp, and deflates it
otherwise; the comparison is case-insensitive because the extension is
lowercased first. -/
theorem get_options_stored_iff :
    ∀ ext : String,
      (get_options ext = CompressionMethod.stored ↔
        ext.toLower ∈ ["jpg", "jpeg", "png", "webp"])
      ∧ (get_options ext = CompressionMethod.deflated ↔
        ext.toLower ∉ ["jpg", "jpeg", "png", "webp"]) := by
  intro ext
  by_cases h : ext.toLower = "jpg" ∨ ext.toLower = "jpeg" ∨ ext.toLower = "png"
      ∨ ext.toLower = "webp"
  · have hm : ext.toLower ∈ ["jpg", "jpeg", "png", "webp"] := by simpa using h
    simp only [get_options, if_pos h]
    simp [hm]
  · have hm : ext.toLower ∉ ["jpg", "jpeg", "png", "webp"] := by simpa using h
    simp only [get_options, if_neg h]
    simp [hm]

/-- C10: calc_average_size_per_file divides the archive size by the entry
count with Rust's panicking u64 division and no zero guard: on a valid
zip with zero entries it panics (none) instead of returning a value or an
error, while for a nonzero entry count it returns the integer average. -/
theorem calc_average_empty_archive_panics :
    (∀ fileSize : Nat, calc_average_size_per_file fileSize 0 = none)
    ∧ (∀ fileSize entryCount : Nat, 0 < entryCount →
        calc_average_size_per_file fileSize entryCount = some (fileSize / entryCount)) := by
  constructor
  · intro s
    rfl
  · intro s c hc
    unfold calc_average_size_per_file rustDivU64
    rw [if_neg (by omega)]

/-- Witness for C10: a 100-byte empty archive panics; 100 bytes over 4
entries averages 25. -/
theorem calc_average_empty_archive_panics_witness :
    calc_average_size_per_file 100 0 = none
    ∧ calc_average_size_per_file 100 4 = some 25 :=
  ⟨calc_average_empty_archive_panics.1 100,
    calc_average_empty_archive_panics.2 100 4 (by decide)⟩

/-- C3 counterexample: with a two-byte container, the destination passes
through the state "holds only the first byte", which is neither absent
nor the complete container — the copy-into-created-file publication is
observable partially written. -/
theorem commit_partial_state_observable :
    some [0] ∈ commitSteps [0, 1]
    ∧ ¬ (∀ s ∈ commitSteps [0, 1], s = none ∨ s = some [0, 1]) := by
  constructor
  · decide
  · decide

/-- C3 amended: the commit stages the packed container in a temp file and
then publishes it by File::create plus io::copy, so the destination path
goes through exactly the states absent, empty, and every prefix of the
container in order, ending with the complete container; intermediate
partial states are observable (there is no atomic rename). -/
theorem commit_prefix_states_amended :
    ∀ container : List Nat,
      (∀ s ∈ commitSteps container,
        s = none ∨ ∃ i, i ≤ container.length ∧ s = some (container.take i))
      ∧ some container ∈ commitSteps container := by
  intro c
  constructor
  · intro s hs
    simp only [commitSteps, List.mem_cons, List.mem_map, List.mem_range] at hs
    rcases hs with h | ⟨i, hi, hsome⟩
    · exact Or.inl h
    · exact Or.inr ⟨i, by omega, hsome.symm⟩
  · simp only [commitSteps, List.mem_cons, List.mem_map, List.mem_range]
    exact Or.inr ⟨c.length, by omega, by rw [List.take_length]⟩

/-- Witness for the C3 amended theorem on the one-byte container. -/
theorem commit_prefix_states_witness :
    (some [7] = none ∨ ∃ i, i ≤ [7].length ∧ some [7] = some ([7].take i))
    ∧ some [7] ∈ commitSteps [7] :=
  ⟨(commit_prefix_states_amended [7]).1 (some [7]) (by decide),
    (commit_prefix_states_amended [7]).2⟩

theorem ratRound_self_mul (h t : Nat) (hh : 0 < h) : ratRound (h * t) h = t := by
  unfold ratRound
  rw [show 2 * (h * t) + h = h * (2 * t + 1) by ring, show 2 * h = h * 2 by ring,
    Nat.mul_div_mul_left _ _ hh]
  omega

theorem ratRound_mul_le (w t h : Nat) (hth : t ≤ h) (hh : 0 < h) :
    ratRound (w * t) h ≤ w := by
  unfold ratRound
  have hwt : w * t ≤ w * h := Nat.mul_le_mul_left w hth
  calc (2 * (w * t) + h) / (2 * h) ≤ (2 * (w * h) + h) / (2 * h) :=
        Nat.div_le_div_right (by omega)
    _ = h * (2 * w + 1) / (h * 2) := by
        rw [show 2 * (w * h) + h = h * (2 * w + 1) by ring, show 2 * h = h * 2 by ring]
    _ = (2 * w + 1) / 2 := Nat.mul_div_mul_left _ _ hh
    _ ≤ w := by omega

theorem resize_dimensions_in_range (w h t : Nat) (hw : 1 ≤ w) (ht : 1 ≤ t) (hth : t ≤ h)
    (hwmax : w ≤ u32max) (hhmax : h ≤ u32max) :
    resize_dimensions w h u32max t = (max (ratRound (w * t) h) 1, t) := by
  have hh : 0 < h := lt_of_lt_of_le ht hth
  have huse : t * w ≤ u32max * h := by
    calc t * w ≤ h * u32max := Nat.mul_le_mul hth hwmax
      _ = u32max * h := Nat.mul_comm h u32max
  have hwle : ratRound (w * t) h ≤ w := ratRound_mul_le w t h hth hh
  simp only [resize_dimensions, if_pos huse]
  rw [ratRound_self_mul h t hh, max_eq_left ht]
  rw [if_neg (not_lt.mpr (max_le (le_trans hwle hwmax) (le_trans hw hwmax)))]
  rw [if_neg (not_lt.mpr (le_trans hth hhmax))]

/-- C4 counterexample: a 1x100000 image resized to target height 1800.
The claim predicts output width round(1*1800/100000) = 0, but the code
clamps each computed dimension below at 1, so the output is (1, 1800). -/
theorem reduce_size_width_clamp_counterexample :
    reduce_size 1 100000 1800 = (1, 1800) ∧ ratRound (1 * 1800) 100000 = 0 :=
  ⟨by decide, by decide⟩

/-- C4 amended: for u32 dimensions and a positive resize target, an image
with height < target is unchanged, and an image with height ≥ target is
resized to height exactly the target with width max(round(w*t/h), 1) —
the round is clamped below at 1 — and is never upscaled in either
dimension. -/
theorem reduce_size_amended (w h t : Nat) (hw : 1 ≤ w) (ht : 1 ≤ t)
    (hwmax : w ≤ u32max) (hhmax : h ≤ u32max) :
    (h < t → reduce_size w h t = (w, h))
    ∧ (t ≤ h →
        reduce_size w h t = (max (ratRound (w * t) h) 1, t)
        ∧ (reduce_size w h t).1 ≤ w ∧ (reduce_size w h t).2 ≤ h) := by
  constructor
  · intro hlt
    unfold reduce_size
    rw [if_neg (by omega)]
  · intro hth
    have hh : 0 < h := lt_of_lt_of_le ht hth
    have heq : reduce_size w h t = (max (ratRound (w * t) h) 1, t) := by
      unfold reduce_size
      rw [if_pos hth]
      exact resize_dimensions_in_range w h t hw ht hth hwmax hhmax
    refine ⟨heq, ?_, ?_⟩
    · rw [heq]
      exact max_le (ratRound_mul_le w t h hth hh) hw
    · rw [heq]
      exact hth

/-- Witness for the C4 amended theorem: a 1200x3000 image at target 1800
is resized to (720, 1800), within the original bounds. -/
theorem reduce_size_amended_witness :
    reduce_size 1200 3000 1800 = (max (ratRound (1200 * 1800) 3000) 1, 1800)
    ∧ (reduce_size 1200 3000 1800).1 ≤ 1200 ∧ (reduce_size 1200 3000 1800).2 ≤ 3000 :=
  (reduce_size_amended 1200 3000 1800 (by decide) (by decide) (by decide) (by decide)).2
    (by decide)

theorem takeWhile_length_le (p : Nat → Bool) (l : List Nat) :
    (l.takeWhile p).length ≤ l.length := by
  induction l with
  | nil => simp
  | cons a as ih =>
    rw [List.takeWhile_cons]
    cases p a
    · simp
    · simp
      exact ih

/-- C5: the quality search tries exactly the descending levels 95, 85,
..., 15 (fixed decrement 10); it returns the first level whose encoded
size is strictly under the 1 MiB budget, and falls back to quality 10
regardless of size when none qualifies; hence the chosen encoding is
under budget or was made at the floor quality 10, and at most 10 encode
calls happen for any image. -/
theorem quality_search_confirmed :
    qualityLevels = [95, 85, 75, 65, 55, 45, 35, 25, 15]
    ∧ ∀ encode : Nat → Nat,
        ((chosenWebp encode).2 < budget ∨ (chosenWebp encode).1 = 10)
        ∧ (∀ q, qualityLevels.find? (fun x => decide (encode x < budget)) = some q →
            chosenWebp encode = (q, encode q))
        ∧ (qualityLevels.find? (fun x => decide (encode x < budget)) = none →
            chosenWebp encode = (10, encode 10))
        ∧ countAttempts encode ≤ 10 := by
  refine ⟨by decide, fun encode => ⟨?_, ?_, ?_, ?_⟩⟩
  · unfold chosenWebp
    cases hf : qualityLevels.find? (fun x => decide (encode x < budget)) with
    | none => exact Or.inr rfl
    | some q =>
      left
      simpa using List.find?_some hf
  · intro q hq
    unfold chosenWebp
    rw [hq]
  · intro hq
    unfold chosenWebp
    rw [hq]
  · unfold countAttempts
    have h1 := takeWhile_length_le (fun q => !decide (encode q < budget)) qualityLevels
    have h2 : qualityLevels.length = 9 := by decide
    omega

/-- Witness for C5 with the constant-zero encoder: quality 95 is found
first and chosen. -/
theorem quality_search_witness :
    qualityLevels.find? (fun x => decide ((fun _ : Nat => 0) x < budget)) = some 95
    ∧ chosenWebp (fun _ : Nat => 0) = (95, 0) :=
  ⟨by decide, (quality_search_confirmed.2 (fun _ : Nat => 0)).2.1 95 (by decide)⟩

theorem mem_insertByName {x t : FsTree} {l : List FsTree}
    (h : x ∈ insertByName t l) : x = t ∨ x ∈ l := by
  induction l with
  | nil => simpa [insertByName] using h
  | cons u us ih =>
    rw [insertByName] at h
    by_cases hc : t.name ≤ u.name
    · rw [if_pos hc] at h
      simpa using h
    · rw [if_neg hc] at h
      rcases List.mem_cons.mp h with h1 | h1
      · exact Or.inr (by simp [h1])
      · rcases ih h1 with h2 | h2
        · exact Or.inl h2
        · exact Or.inr (by simp [h2])

theorem pairwise_insertByName {t : FsTree} {l : List FsTree}
    (h : List.Pairwise (fun a b => a.name ≤ b.name) l) :
    List.Pairwise (fun a b => a.name ≤ b.name) (insertByName t l) := by
  induction l with
  | nil => simp [insertByName]
  | cons u us ih =>
    rcases List.pairwise_cons.mp h with ⟨hu, hus⟩
    rw [insertByName]
    by_cases hc : t.name ≤ u.name
    · rw [if_pos hc]
      refine List.pairwise_cons.mpr ⟨?_, h⟩
      intro b hb
      rcases List.mem_cons.mp hb with rfl | hb2
      · exact hc
      · exact le_trans hc (hu b hb2)
    · rw [if_neg hc]
      refine List.pairwise_cons.mpr ⟨?_, ih hus⟩
      intro b hb
      rcases mem_insertByName hb with rfl | hb2
      · exact le_of_not_le hc
      · exact hu b hb2

theorem pairwise_sortByName (l : List FsTree) :
    List.Pairwise (fun a b => a.name ≤ b.name) (sortByName l) := by
  induction l with
  | nil => simp [sortByName]
  | cons t ts ih => exact pairwise_insertByName ih

theorem zipDirs_eq_flatMap (pre : String) (l : List FsTree) :
    zipDirs pre l = (l.filter FsTree.isDir).flatMap
      (fun t => (pre ++ t.name) :: zip_process_dir (pre ++ t.name ++ "/") t.children) := by
  induction l with
  | nil => rw [zipDirs]; rfl
  | cons t rest ih =>
    cases t with
    | file n =>
      rw [zipDirs]
      simpa [FsTree.isDir] using ih
    | dir n children =>
      rw [zipDirs]
      simpa [FsTree.isDir, FsTree.name, FsTree.children] using ih

/-- C6 counterexample: a working tree whose root holds the directory "a"
and the file "b".  The packer writes the file entry "b" before the
directory entry "a", so the entries of this level are not in lexicographic
name order. -/
theorem pack_order_not_lexicographic :
    zip_process_dir "" [FsTree.dir "a" [], FsTree.file "b"] = ["b", "a"]
    ∧ ¬ List.Pairwise (fun x y : String => x ≤ y) ["b", "a"] := by
  constructor
  · have h0 : ∀ pre, zipDirs pre ([] : List FsTree) = [] := fun pre => by
      rw [zipDirs]
    have h1 : ∀ pre, zip_process_dir pre ([] : List FsTree) = [] := fun pre => by
      rw [zip_process_dir, show sortByName ([] : List FsTree) = [] from rfl, h0]
      rfl
    have hab : ("a" : String) ≤ "b" := by
      simp
      decide
    have hsort : sortByName [FsTree.dir "a" [], FsTree.file "b"]
        = [FsTree.dir "a" [], FsTree.file "b"] := by
      simp only [sortByName, insertByName, FsTree.name]
      rw [if_pos hab]
    rw [zip_process_dir, hsort, zipDirs, zipDirs, h0, h1]
    decide
  · intro hp
    exact absurd ((List.pairwise_cons.mp hp).1 "a" (by simp))
      (by simp
          decide)

/-- C6 amended: at each directory level the packer first writes all file
entries, then all directory entries, each group sorted by name
(lexicographic), and each directory's entry is immediately followed by
its own subtree's entries (depth-first, parent before children); the
whole listing is a pure function of the tree, hence deterministic across
runs.  The level as a whole is NOT in lexicographic order: files precede
directories regardless of name. -/
theorem pack_order_amended :
    ∀ (pre : String) (cs : List FsTree),
      zip_process_dir pre cs =
        ((sortByName cs).filter FsTree.isFile).map (fun t => pre ++ t.name)
          ++ ((sortByName cs).filter FsTree.isDir).flatMap
              (fun t => (pre ++ t.name) :: zip_process_dir (pre ++ t.name ++ "/") t.children)
      ∧ List.Pairwise (fun a b => a.name ≤ b.name) (sortByName cs) := by
  intro pre cs
  constructor
  · rw [zip_process_dir, zipDirs_eq_flatMap]
  · exact pairwise_sortByName cs
